import Mathlib

/-!
Shallow embedding of the litematicRender repository (src/loader.py,
src/renderer.py, src/utils.py) and proofs about its specification claims.

Python dictionaries (JSON model definitions) are modelled as association
lists with insertion-order semantics; machine floats are modelled as exact
rationals; the asset/texture providers (network + cache) are modelled as
abstract lookup functions; PIL images are modelled at the level of the
draw operations / pasted pixel sets the code produces.
-/

namespace LitematicRender

/-- JSON-like values, as produced by `json.load` in `loader.py`.
Objects keep insertion order, matching Python dicts. -/
inductive J where
  | str (s : String)
  | num (q : ℚ)
  | bool (b : Bool)
  | arr (l : List J)
  | obj (l : List (String × J))

/-! ### String helpers (kernel-reducible models of Python `str` methods) -/

/-- Python `s.replace(pat, rep)` on character lists: replaces all
non-overlapping occurrences left to right (for a nonempty pattern).
The structural bound `n` only needs to be at least `s.length`: every
recursive call shortens `s` by at least one character. -/
def replaceGo : Nat → List Char → List Char → List Char → List Char
  | 0, s, _, _ => s
  | n + 1, s, pat, rep =>
    match s with
    | [] => []
    | c :: rest =>
      if pat ≠ [] ∧ pat.isPrefixOf (c :: rest) then
        rep ++ replaceGo n ((c :: rest).drop pat.length) pat rep
      else c :: replaceGo n rest pat rep

/-- Python `s.replace(pat, rep)`. -/
def pyReplace (s pat rep : String) : String :=
  String.mk (replaceGo s.toList.length s.toList pat.toList rep.toList)

/-- Python `s.startswith(pre)`. -/
def strStarts (s pre : String) : Bool := pre.toList.isPrefixOf s.toList

/-- Python `s[n:]`. -/
def strDrop (s : String) (n : Nat) : String := String.mk (s.toList.drop n)

/-- Python `pat in s` (substring containment). -/
def substrB (pat s : String) : Bool := s.toList.tails.any (fun t => pat.toList.isPrefixOf t)

/-! ### Python dict operations on association lists -/

/-- Python `d.get(k)` / `d[k]`: first binding of `k` (dicts have unique keys;
association lists generalize them). -/
def lookupJ : List (String × J) → String → Option J
  | [], _ => none
  | (k', v) :: t, k => if k' = k then some v else lookupJ t k

/-- Python `d[k] = v`: update the binding of `k` in place if present
(insertion order kept), else append at the end. -/
def setKey : List (String × J) → String → J → List (String × J)
  | [], k, v => [(k, v)]
  | (k', v') :: t, k, v => if k' = k then (k, v) :: t else (k', v') :: setKey t k v

/-- Python `d.setdefault(k, d0)`: insert `(k, d0)` at the end if `k` absent. -/
def setdefaultJ (l : List (String × J)) (k : String) (d0 : J) : List (String × J) :=
  match lookupJ l k with
  | some _ => l
  | none => l ++ [(k, d0)]

/-- Key membership in an association list. -/
def keyMem (k : String) (l : List (String × J)) : Bool := l.any (fun p => p.1 = k)

/-- Keys pairwise distinct (true of every Python dict). -/
def keysNodup : List (String × J) → Bool
  | [] => true
  | (k, _) :: t => !(keyMem k t) && keysNodup t

/-- Python truthiness of a JSON value (`if not model_data: ...`). -/
def jTruthy : J → Bool
  | .str s => s != ""
  | .num q => q != 0
  | .bool b => b
  | .arr l => !l.isEmpty
  | .obj l => !l.isEmpty

/-- Python `isinstance(v, dict)`. -/
def isObj : J → Bool
  | .obj _ => true
  | _ => false

/-- Well-formedness of a JSON value as it arises from Python: every object
along the object spine has pairwise-distinct keys. -/
def jWF : J → Bool
  | .str _ => true
  | .num _ => true
  | .bool _ => true
  | .arr _ => true
  | .obj l => keysNodup l && jWFList l
where
  /-- object entries all well-formed -/
  jWFList : List (String × J) → Bool
  | [] => true
  | (_, v) :: t => jWF v && jWFList t

/-! ### `loader.deep_assign` -/

/-- The `for key, val in source.items()` loop of `deep_assign`, processing
the remaining items of `source` against the current `target` (the recursive
`deep_assign(target[key], val)` call always receives a dict `val`, so it
re-enters this same loop). `none` models a raised Python exception
(iterating / indexing a non-dict target with a nonempty source). -/
def deepAssignItems (target : J) (src : List (String × J)) : Option J :=
  match src with
  | [] => some target
  | (k, v) :: rest =>
    match target with
    | .obj tl =>
      match v with
      | .obj o =>
        -- target.setdefault(key, {}); deep_assign(target[key], val)
        let tl1 := setdefaultJ tl k (.obj [])
        match lookupJ tl1 k with
        | some tv =>
          match deepAssignItems tv o with
          | some tv' => deepAssignItems (.obj (setKey tl1 k tv')) rest
          | none => none
        | none => none
      | _ => deepAssignItems (.obj (setKey tl k v)) rest
    | _ => none
termination_by sizeOf src

/-- The function `loader.deep_assign(target, source)`: recursively merges `source` into
`target`. -/
def deep_assign (target source : J) : Option J :=
  match source with
  | .obj src => deepAssignItems target src
  | _ => none

/-! ### `loader.parse_model` and its helpers -/

/-- Lookup in a Python `str -> str` dict (`BLOCK_MODEL_MAP`). -/
def lookupStr : List (String × String) → String → Option String
  | [], _ => none
  | (k', v) :: t, k => if k' = k then some v else lookupStr t k

/-- The table `loader.BLOCK_MODEL_MAP`. -/
def BLOCK_MODEL_MAP : List (String × String) :=
  [("redstone_wire", "block/redstone_dust_dot"),
   ("wall_torch", "block/wall_torch"),
   ("fire", "block/fire_floor0"),
   ("soul_fire", "block/soul_fire_floor0"),
   ("water", "block/water_still"),
   ("lava", "block/lava_still"),
   ("grass", "block/grass"),
   ("tall_grass", "block/tall_grass_bottom")]

/-- The function `loader.get_model_file`, with the remote asset store + JSON cache
abstracted as a lookup `assets : String → Option J` keyed by
`"{model_type}/{clean_name}"` (the path under `models/`); `none` is a
missing asset or network error. -/
def get_model_file (assets : String → Option J) (block_name : String) : Option J :=
  let name := pyReplace block_name "minecraft:" ""
  let tc : String × String :=
    if strStarts name "item/" then ("item", strDrop name 5)
    else if strStarts name "block/" then ("block", strDrop name 6)
    else ("block", name)
  assets (tc.1 ++ "/" ++ tc.2)

/-- Python `not model_data` for an optional JSON value. -/
def pyFalsy (m : Option J) : Bool :=
  match m with
  | none => true
  | some v => !jTruthy v

/-- Python `k in v` (`'parent' in model_data`); `none` models the
`TypeError` raised for non-container values. -/
def pyIn (k : String) : J → Option Bool
  | .obj l => some (keyMem k l)
  | .str s => some (substrB k s)
  | .arr l => some (l.any (fun v => match v with | .str s => s = k | _ => false))
  | _ => none

/-- The synthetic full-cube fluid model returned by `parse_model` for
`minecraft:water` / `minecraft:lava`. -/
def fluidModel (tex : String) : J :=
  .obj [("elements", .arr [.obj [
      ("from", .arr [.num 0, .num 0, .num 0]),
      ("to", .arr [.num 16, .num 16, .num 16]),
      ("faces", .obj [
        ("up", .obj [("texture", .str "#all")]),
        ("north", .obj [("texture", .str "#all")]),
        ("east", .obj [("texture", .str "#all")]),
        ("south", .obj [("texture", .str "#all")]),
        ("west", .obj [("texture", .str "#all")]),
        ("down", .obj [("texture", .str "#all")])])]]),
    ("textures", .obj [("all", .str tex)])]

/-- The synthetic sign-board model returned by `parse_model` for
identifiers containing `"_sign"`. -/
def signModel (tex : String) : J :=
  .obj [("elements", .arr [.obj [
      ("from", .arr [.num 0, .num 4, .num 0]),
      ("to", .arr [.num 16, .num 12, .num 2]),
      ("faces", .obj [
        ("up", .obj [("texture", .str "#all")]),
        ("north", .obj [("texture", .str "#all")]),
        ("east", .obj [("texture", .str "#all")]),
        ("south", .obj [("texture", .str "#all")]),
        ("west", .obj [("texture", .str "#all")]),
        ("down", .obj [("texture", .str "#all")])])]]),
    ("textures", .obj [("all", .str tex)])]

/-- The function `loader.parse_model`: resolves a block identifier to a merged model.
The Python function recurses on the `parent` chain with no guard, so the
embedding carries fuel; `none` is an unfinished/raised computation
(fuel exhaustion or a Python exception), `some m` the returned model. -/
def parse_model (assets : String → Option J) : Nat → String → Option J
  | 0, _ => none
  | fuel + 1, block_name =>
    let clean_name := pyReplace block_name "minecraft:" ""
    let model_data : Option J :=
      match lookupStr BLOCK_MODEL_MAP clean_name with
      | some mapped => get_model_file assets mapped
      | none => get_model_file assets block_name
    let model_data2 : Option J :=
      if pyFalsy model_data && !strStarts block_name "item/" then
        let clean2 := pyReplace (pyReplace block_name "minecraft:" "") "block/" ""
        get_model_file assets ("item/" ++ clean2)
      else model_data
    if pyFalsy model_data2 then
      if block_name = "minecraft:water" ∨ block_name = "minecraft:lava" then
        some (fluidModel (if block_name = "minecraft:water" then "block/water_still" else "block/lava_still"))
      else if substrB "_sign" block_name then
        let wood_type :=
          pyReplace (pyReplace (pyReplace block_name "minecraft:" "") "_wall_sign" "") "_sign" ""
        some (signModel ("block/" ++ wood_type ++ "_planks"))
      else
        -- print error; return {}
        some (.obj [])
    else
      match model_data2 with
      | some md =>
        match pyIn "parent" md with
        | some true =>
          match md with
          | .obj ml =>
            match lookupJ ml "parent" with
            | some (.str pname) =>
              match parse_model assets fuel pname with
              | some parent_model => deep_assign parent_model md
              | none => none
            | _ => none  -- a non-string parent crashes inside get_model_file
          | _ => none    -- `model_data['parent']` on a non-dict raises
        | some false => some md
        | none => none   -- `'parent' in model_data` raises on numbers
      | none => some (.obj [])  -- unreachable: model_data2 is truthy here

/-! ### Renderer: transparency predicate and texture-variable loop -/

/-- The predicate `renderer.is_transparent`. -/
def transparent_keywords : List String :=
  ["glass", "ice", "water", "lava", "slime", "honey", "leaves", "beacon", "scaffolding", "spawner"]

/-- Checks if a block is transparent (substring match against the fixed
keyword list). -/
def is_transparent (block_id : String) : Bool :=
  transparent_keywords.any (fun k => substrB k block_id)

/-- Outcome of the `while texture_ref.startswith('#')` loop in
`render_block_to_sprite`, observed for a given number of iterations. -/
inductive TexLoop where
  | done (ref : String)  -- the loop exited; `ref` is the final `texture_ref`
  | stuck                -- AttributeError: a truthy non-string resolution
  | running              -- the loop is still iterating after the given fuel

/-- The texture-variable resolution loop of `render_block_to_sprite`
(`while texture_ref.startswith('#'): resolved = textures.get(ref[1:]);
if not resolved: break; texture_ref = resolved`), run for at most `fuel`
iterations. The Python loop itself has no iteration bound. -/
def textureLoop (textures : List (String × J)) : Nat → String → TexLoop
  | fuel, ref =>
    if strStarts ref "#" then
      match fuel with
      | 0 => .running
      | n + 1 =>
        match lookupJ textures (strDrop ref 1) with
        | none => .done ref
        | some v =>
          if jTruthy v then
            match v with
            | .str s => textureLoop textures n s
            | _ => .stuck
          else .done ref
    else .done ref

/-- The loop of `textureLoop` never exits, whatever the iteration count:
the embedded Python `while` loop runs forever on `(textures, ref)`. -/
def texLoopRunsForever (textures : List (String × J)) (ref : String) : Prop :=
  ∀ fuel : Nat, textureLoop textures fuel ref = .running

/-! ### Geometry: `utils.isometric_projection`, face corners, affine warp -/

abbrev Vec3 := ℚ × ℚ × ℚ

abbrev Pt2 := ℚ × ℚ

abbrev Quad := Pt2 × Pt2 × Pt2 × Pt2

/-- The function `utils.isometric_projection`. The float constants
`cos(radians(30))` / `sin(radians(30))` are abstracted as exact rational
parameters `c30` / `s30`. -/
def isometric_projection (c30 s30 x y z scale : ℚ) : Pt2 :=
  ((x - z) * c30 * scale, y * scale - (x + z) * s30 * scale)

/-- The method `LitematicRenderer.get_face_corners`: the TL, TR, BR, BL corners of a
cuboid face, `p1` the `from` corner, `p2` the `to` corner. -/
def get_face_corners (p1 p2 : Vec3) (face : String) : List Vec3 :=
  let (x1, y1, z1) := p1
  let (x2, y2, z2) := p2
  if face = "up" then [(x1, y2, z1), (x2, y2, z1), (x2, y2, z2), (x1, y2, z2)]
  else if face = "down" then [(x1, y1, z1), (x2, y1, z1), (x2, y1, z2), (x1, y1, z2)]
  else if face = "north" then [(x2, y2, z1), (x1, y2, z1), (x1, y1, z1), (x2, y1, z1)]
  else if face = "south" then [(x1, y2, z2), (x2, y2, z2), (x2, y1, z2), (x1, y1, z2)]
  else if face = "east" then [(x2, y2, z2), (x2, y2, z1), (x2, y1, z1), (x2, y1, z2)]
  else if face = "west" then [(x1, y2, z1), (x1, y2, z2), (x1, y1, z2), (x1, y1, z1)]
  else []

/-- The determinant of the 2×2 edge-vector system of
`draw_textured_face`: `dx1*dy2 - dx2*dy1` for edge vectors `TR − TL` and
`BL − TL`. -/
def quadDet (q : Quad) : ℚ :=
  let (x0, y0) := q.1
  let (x1, y1) := q.2.1
  let (x3, y3) := q.2.2.2
  (x1 - x0) * (y3 - y0) - (x3 - x0) * (y1 - y0)

/-- The affine coefficients `(a, b, c, d, e, f)` computed by
`draw_textured_face` for a texture of size `tw × th`, mapping destination
coordinates to source coordinates. -/
def affineCoeffs (q : Quad) (tw th : ℚ) : ℚ × ℚ × ℚ × ℚ × ℚ × ℚ :=
  let (x0, y0) := q.1
  let (x1, y1) := q.2.1
  let (x3, y3) := q.2.2.2
  let dx1 := x1 - x0
  let dy1 := y1 - y0
  let dx2 := x3 - x0
  let dy2 := y3 - y0
  let det := dx1 * dy2 - dx2 * dy1
  let a := tw * dy2 / det
  let b := -(tw * dx2) / det
  let c := -a * x0 - b * y0
  let d := -(th * dy1) / det
  let e := th * dx1 / det
  let f := -d * x0 - e * y0
  (a, b, c, d, e, f)

/-- The destination→source map `(x, y) ↦ (a·x + b·y + c, d·x + e·y + f)`
passed to `Image.transform`. -/
def destToSrc (cf : ℚ × ℚ × ℚ × ℚ × ℚ × ℚ) (p : Pt2) : Pt2 :=
  (cf.1 * p.1 + cf.2.1 * p.2 + cf.2.2.1, cf.2.2.2.1 * p.1 + cf.2.2.2.2.1 * p.2 + cf.2.2.2.2.2)

/-- One texture-warp operation composited onto a sprite tile. Pixel
content of the warped texture is kept symbolic (texture path, tint flag,
destination quad and affine data); an operation is recorded exactly when
the code pastes onto the tile. -/
structure DrawOp where
  tex : String
  tinted : Bool
  quad : Quad
  coeffs : ℚ × ℚ × ℚ × ℚ × ℚ × ℚ

/-- The method `LitematicRenderer.draw_textured_face`: skips the face when the
edge-vector determinant is below `1e-6` in absolute value, otherwise
composites one warped-texture operation onto the tile. -/
def draw_textured_face (canvas : List DrawOp) (texRef : String) (tinted : Bool)
    (tw th : ℚ) (q : Quad) : List DrawOp :=
  let det := quadDet q
  if |det| < 1 / 1000000 then canvas
  else canvas ++ [⟨texRef, tinted, q, affineCoeffs q tw th⟩]

/-! ### `LitematicRenderer.render_block_to_sprite` -/

/-- Environment of the sprite renderer: the decoded-texture provider
(`get_texture_image`, abstracted to the image dimensions it returns),
the float projection constants, and the sprite scale. -/
structure RenderCtx where
  texImgs : String → Option (Nat × Nat)
  c30 : ℚ
  s30 : ℚ
  scale : ℕ

def quadOfList : List Pt2 → Option Quad
  | [a, b, c, d] => some (a, b, c, d)
  | _ => none

/-- Computes `np.array(element[k]) / 16.0` for the `from` / `to` corner of an
element (`none` models the exception raised on a malformed element). -/
def getVec3 (el : List (String × J)) (k : String) : Option Vec3 :=
  match lookupJ el k with
  | some (.arr [.num a, .num b, .num c]) => some (a / 16, b / 16, c / 16)
  | _ => none

/-- The projected 2-D corner list of a face: 3-D corners from
`get_face_corners`, projected by `isometric_projection` and translated to
tile coordinates (`(cx + ix, cy - iy)`). -/
def projQuad (ctx : RenderCtx) (cx cy : ℕ) (fromC toC : Vec3) (face_name : String) :
    List Pt2 :=
  (get_face_corners fromC toC face_name).map (fun v =>
    let pr := isometric_projection ctx.c30 ctx.s30 v.1 v.2.1 v.2.2 (ctx.scale : ℚ)
    ((cx : ℚ) + pr.1, (cy : ℚ) - pr.2))

/-- One iteration of the `for face_name in render_order` loop in
`render_block_to_sprite`. `some canvas'` is the tile after the iteration
(`continue` leaves it unchanged); `none` models a raised exception or the
texture-variable loop never exiting. -/
def renderFaceIter (ctx : RenderCtx) (modelTexs : List (String × J))
    (visibleFaces : List String) (fuel : Nat) (cx cy : ℕ) (fromC toC : Vec3)
    (faces : List (String × J)) (face_name : String) (canvas : List DrawOp) :
    Option (List DrawOp) :=
  match lookupJ faces face_name with
  | none => some canvas                              -- face_name not in faces
  | some face_val =>
    if !(visibleFaces.contains face_name) then some canvas
    else
      match face_val with
      | .obj face_data =>
        let texture_ref : Option String :=
          match lookupJ face_data "texture" with
          | none => some ""                           -- .get('texture', '')
          | some (.str s) => some s
          | some _ => none                            -- startswith on non-string raises
        match texture_ref with
        | none => none
        | some t0 =>
          match textureLoop modelTexs fuel t0 with
          | .running => none                          -- unbounded while loop never exits
          | .stuck => none
          | .done ref =>
            if strStarts ref "#" then some canvas     -- failed to resolve fully: continue
            else
              match ctx.texImgs ref with
              | none => some canvas                   -- missing texture image: continue
              | some (tw, th) =>
                let tinted := (lookupJ face_data "tintindex").isSome
                match quadOfList (projQuad ctx cx cy fromC toC face_name) with
                | some q => some (draw_textured_face canvas ref tinted (tw : ℚ) (th : ℚ) q)
                | none => none
      | _ => none                                     -- face_data.get on non-dict raises

/-- The fixed face draw order of `render_block_to_sprite`. -/
def render_order : List String := ["east", "south", "up"]

/-- The whole `for face_name in render_order` loop for one element. -/
def renderFacesFold (ctx : RenderCtx) (modelTexs : List (String × J))
    (visibleFaces : List String) (fuel : Nat) (cx cy : ℕ) (fromC toC : Vec3)
    (faces : List (String × J)) : List String → List DrawOp → Option (List DrawOp)
  | [], canvas => some canvas
  | f :: rest, canvas =>
    match renderFaceIter ctx modelTexs visibleFaces fuel cx cy fromC toC faces f canvas with
    | some canvas' => renderFacesFold ctx modelTexs visibleFaces fuel cx cy fromC toC faces rest canvas'
    | none => none

/-- The `for element in elements` loop of `render_block_to_sprite`. -/
def renderElements (ctx : RenderCtx) (modelTexs : List (String × J))
    (visibleFaces : List String) (fuel : Nat) (cx cy : ℕ) :
    List J → List DrawOp → Option (List DrawOp)
  | [], canvas => some canvas
  | e :: rest, canvas =>
    match e with
    | .obj el =>
      match getVec3 el "from", getVec3 el "to" with
      | some fromC, some toC =>
        let faces : Option (List (String × J)) :=
          match lookupJ el "faces" with
          | none => some []                           -- .get('faces', {})
          | some (.obj fl) => some fl
          | some _ => none                            -- non-dict faces value (unmodelled)
        match faces with
        | some fl =>
          match renderFacesFold ctx modelTexs visibleFaces fuel cx cy fromC toC fl render_order canvas with
          | some canvas' => renderElements ctx modelTexs visibleFaces fuel cx cy rest canvas'
          | none => none
        | none => none
      | _, _ => none                                  -- malformed from/to raises
    | _ => none                                       -- element.get on non-dict raises

/-- The default face list of `render_block_to_sprite`
(`if visible_faces is None: visible_faces = ['east', 'south', 'up']`). -/
def default_faces : List String := ["east", "south", "up"]

/-- The memoization key of `render_block_to_sprite`:
`(block_name, tuple(sorted(visible_faces)))`, after the `None` default is
applied. -/
def cache_key (block_name : String) (visible_faces : Option (List String)) :
    String × List String :=
  (block_name, (visible_faces.getD default_faces).insertionSort (· ≤ ·))

/-- The method `LitematicRenderer.render_block_to_sprite`. Result: `none` models a
computation that raises or never finishes (parent chain or texture loop);
`some none` is Python `return None` (no sprite); `some (some ops)` is the
rendered tile, as its list of composited texture-warp operations. The
sprite cache is keyed by `cache_key` and only ever stores the value this
pure computation produces. -/
def render_block_to_sprite (assets : String → Option J) (ctx : RenderCtx) (fuel : Nat)
    (block_name : String) (visible_faces : Option (List String)) :
    Option (Option (List DrawOp)) :=
  let vf := visible_faces.getD default_faces
  match parse_model assets fuel block_name with
  | none => none
  | some model =>
    if !jTruthy model then some none                  -- `if not model: return None`
    else
      match model with
      | .obj m =>
        let elements : Option (List J) :=
          match lookupJ m "elements" with
          | none => some []                           -- .get('elements', [])
          | some (.arr es) => some es
          | some _ => none                            -- iterating non-list raises
        let texs : Option (List (String × J)) :=
          match lookupJ m "textures" with
          | none => some []                           -- .get('textures', {})
          | some (.obj t) => some t
          | some _ => none                            -- .get on non-dict raises
        match elements, texs with
        | some es, some ts =>
          let w := ctx.scale * 4
          let cx := w / 2
          let cy := w / 2
          match renderElements ctx ts vf fuel cx cy es [] with
          | some ops => some (some ops)
          | none => none
        | _, _ => none
      | _ => none                                     -- model.get on non-dict raises

/-! ### `LitematicRenderer.render` (scene compositing) -/

/-- Region bounds, as reported by the grid provider. -/
structure Bounds where
  minX : Int
  maxX : Int
  minY : Int
  maxY : Int
  minZ : Int
  maxZ : Int

/-- Python `range(lo, hi + 1)` over integers. -/
def intRange (lo hi : Int) : List Int :=
  (List.range (hi + 1 - lo).toNat).map (fun (i : ℕ) => lo + (i : Int))

/-- The nested `for y: for z: for x:` visiting order of
`LitematicRenderer.render`, as the list of visited `(x, y, z)` positions. -/
def scanPositions (bd : Bounds) : List (Int × Int × Int) :=
  (intRange bd.minY bd.maxY).flatMap (fun y =>
    (intRange bd.minZ bd.maxZ).flatMap (fun z =>
      (intRange bd.minX bd.maxX).map (fun x => (x, y, z))))

/-- One neighbor-check block of the face culling in
`LitematicRenderer.render` (the same code block is repeated verbatim for
east/south/up): inside bounds, against a non-air neighbor, remove `face`
when the target is transparent with an identical neighbor, or opaque with
an opaque neighbor. -/
def cullStep (block n : String) (inB : Prop) [Decidable inB]
    (vf : List String) (face : String) : List String :=
  if inB then
    if n ≠ "minecraft:air" then
      if is_transparent block then
        (if n = block then vf.erase face else vf)
      else if !is_transparent n then vf.erase face else vf
    else vf
  else vf

/-- The face-culling step of `LitematicRenderer.render` for the block at
`(x, y, z)`: starts from `['east', 'south', 'up']` and removes faces
against occluding neighbors. -/
def visibleFacesAt (grid : Int → Int → Int → String) (bd : Bounds)
    (x y z : Int) : List String :=
  let block := grid x y z
  let vf0 := ["east", "south", "up"]
  let vf1 := cullStep block (grid (x + 1) y z) (x + 1 ≤ bd.maxX) vf0 "east"
  let vf2 := cullStep block (grid x y (z + 1)) (z + 1 ≤ bd.maxZ) vf1 "south"
  let vf3 := cullStep block (grid x (y + 1) z) (y + 1 ≤ bd.maxY) vf2 "up"
  vf3

/-- Python `int(q)` (truncation toward zero). -/
def pyInt (q : ℚ) : Int := if 0 ≤ q then ⌊q⌋ else -⌊-q⌋

/-- A sprite pasted onto the scene canvas: top-left paste position and the
sprite's draw operations. -/
abbrev PasteEvent := Int × Int × List DrawOp

/-- The sprite request + positioning + paste for one non-air block of
`LitematicRenderer.render`; `none` when the block contributes nothing
(no sprite, or the per-block `try/except` swallowed an exception). -/
def pasteOf (assets : String → Option J) (ctx : RenderCtx) (fuel : Nat)
    (grid : Int → Int → Int → String) (bd : Bounds) (p : Int × Int × Int) :
    Option PasteEvent :=
  let (x, y, z) := p
  match render_block_to_sprite assets ctx fuel (grid x y z)
      (some (visibleFacesAt grid bd x y z)) with
  | some (some sprite) =>
    let pr := isometric_projection ctx.c30 ctx.s30 (x : ℚ) (y : ℚ) (z : ℚ) (ctx.scale : ℚ)
    let half := ctx.scale * 4 / 2                     -- sprite.width // 2
    let px := pyInt ((1000 : ℚ) + pr.1 - (half : ℚ))
    let py := pyInt ((1000 : ℚ) - pr.2 - (half : ℚ))
    some (px, py, sprite)
  | _ => none

/-- The body of the triple loop of `LitematicRenderer.render` for one
position: skip air, else cull + render + paste. -/
def sceneStep (assets : String → Option J) (ctx : RenderCtx) (fuel : Nat)
    (grid : Int → Int → Int → String) (bd : Bounds)
    (canvas : List PasteEvent) (p : Int × Int × Int) : List PasteEvent :=
  if grid p.1 p.2.1 p.2.2 = "minecraft:air" then canvas
  else
    match pasteOf assets ctx fuel grid bd p with
    | some e => canvas ++ [e]
    | none => canvas

/-- The whole block sweep of `LitematicRenderer.render`: the pastes onto
the 2000×2000 canvas, in execution order. -/
def renderEvents (assets : String → Option J) (ctx : RenderCtx) (fuel : Nat)
    (grid : Int → Int → Int → String) (bd : Bounds) : List PasteEvent :=
  (scanPositions bd).foldl (sceneStep assets ctx fuel grid bd) []

/-- The non-transparent pixels of the scene canvas, given a rasterizer
`raster` for sprite tiles (PIL's texture warping + alpha compositing,
abstracted): each pasted sprite contributes its pixels shifted by the
paste position. -/
def scenePixels (raster : List DrawOp → List (Int × Int))
    (events : List PasteEvent) : List (Int × Int) :=
  events.flatMap (fun e => (raster e.2.2).map (fun uv => (e.1 + uv.1, e.2.1 + uv.2)))

/-- PIL `Image.getbbox()`: `(left, upper, right, lower)` of the non-zero
pixels, right/lower exclusive; `none` for an empty canvas. -/
def getbbox : List (Int × Int) → Option (Int × Int × Int × Int)
  | [] => none
  | p :: rest =>
    some (rest.foldl (fun m q => min m q.1) p.1,
          rest.foldl (fun m q => min m q.2) p.2,
          rest.foldl (fun m q => max m q.1) p.1 + 1,
          rest.foldl (fun m q => max m q.2) p.2 + 1)

/-- The `bbox = canvas.getbbox(); if bbox: canvas = canvas.crop(bbox)`
tail of `LitematicRenderer.render`: the content pixels of the saved
image. -/
def renderOutput (px : List (Int × Int)) : List (Int × Int) :=
  match getbbox px with
  | some (l, u, _, _) => px.map (fun p => (p.1 - l, p.2 - u))
  | none => px

/-- The method `LitematicRenderer.render` end to end: sweep, crop, save — the pixel
content of the written image. -/
def render (assets : String → Option J) (ctx : RenderCtx) (fuel : Nat)
    (grid : Int → Int → Int → String) (bd : Bounds)
    (raster : List DrawOp → List (Int × Int)) : List (Int × Int) :=
  renderOutput (scenePixels raster (renderEvents assets ctx fuel grid bd))

/-! ## Theorems -/

/-- The cyclic textures mapping `{a: "#b", b: "#a"}`. -/
def cycTex : List (String × J) := [("a", J.str "#b"), ("b", J.str "#a")]

theorem cycTex_pair (n : Nat) :
    textureLoop cycTex n "#a" = .running ∧ textureLoop cycTex n "#b" = .running := by
  induction n with
  | zero => exact ⟨rfl, rfl⟩
  | succ n ih => exact ⟨ih.2, ih.1⟩

/-- C1: the texture-variable resolution loop of `render_block_to_sprite`
has no cycle detection and no iteration bound: on the merged textures
mapping `{a: "#b", b: "#a"}` and starting reference `"#a"`, the `while`
loop is still running after every finite number of iterations — contrary
to the claim that resolution always terminates with a literal path or a
skip-this-face failure. -/
theorem texture_cycle_loops_forever : texLoopRunsForever cycTex "#a" :=
  fun n => (cycTex_pair n).1

/-- C5: whenever the edge-vector determinant clears the epsilon threshold,
the affine coefficients computed by `draw_textured_face` define a
destination-to-source map sending TL to `(0,0)`, TR to `(tw,0)` and BL to
`(0,th)` exactly. -/
theorem affine_maps_corners (q : Quad) (tw th : ℚ)
    (h : 1 / 1000000 ≤ |quadDet q|) :
    destToSrc (affineCoeffs q tw th) q.1 = (0, 0) ∧
    destToSrc (affineCoeffs q tw th) q.2.1 = (tw, 0) ∧
    destToSrc (affineCoeffs q tw th) q.2.2.2 = (0, th) := by
  obtain ⟨⟨x0, y0⟩, ⟨x1, y1⟩, ⟨x2, y2⟩, ⟨x3, y3⟩⟩ := q
  have hdet : (x1 - x0) * (y3 - y0) - (x3 - x0) * (y1 - y0) ≠ 0 := by
    intro h0
    rw [show quadDet ((x0, y0), (x1, y1), (x2, y2), (x3, y3)) =
        (x1 - x0) * (y3 - y0) - (x3 - x0) * (y1 - y0) from rfl, h0] at h
    norm_num at h
  simp only [quadDet, affineCoeffs, destToSrc, Prod.mk.injEq]
  refine ⟨⟨?_, ?_⟩, ⟨?_, ?_⟩, ⟨?_, ?_⟩⟩ <;> (field_simp; ring)

/-- Witness for C5 at the unit square with a 16×16 texture. -/
theorem affine_maps_corners_witness :
    destToSrc (affineCoeffs ((0, 0), (1, 0), (1, 1), (0, 1)) 16 16) ((0, 0), (1, 0), (1, 1), (0, 1)).1 = (0, 0) ∧
    destToSrc (affineCoeffs ((0, 0), (1, 0), (1, 1), (0, 1)) 16 16) ((0, 0), (1, 0), (1, 1), (0, 1)).2.1 = (16, 0) ∧
    destToSrc (affineCoeffs ((0, 0), (1, 0), (1, 1), (0, 1)) 16 16) ((0, 0), (1, 0), (1, 1), (0, 1)).2.2.2 = (0, 16) :=
  affine_maps_corners ((0, 0), (1, 0), (1, 1), (0, 1)) 16 16 (by norm_num [quadDet])

/-- C10: sprite rendering with `visible_faces = None` is the
same computation as with the explicit list `['east', 'south', 'up']`, and
the cache key ignores face-list order. -/
theorem default_faces_behavior (assets : String → Option J) (ctx : RenderCtx)
    (fuel : Nat) (b : String) :
    render_block_to_sprite assets ctx fuel b none =
      render_block_to_sprite assets ctx fuel b (some ["east", "south", "up"]) ∧
    cache_key b none = cache_key b (some ["east", "south", "up"]) ∧
    ∀ l₁ l₂ : List String, l₁.Perm l₂ → cache_key b (some l₁) = cache_key b (some l₂) := by
  refine ⟨rfl, rfl, ?_⟩
  intro l₁ l₂ hp
  simp only [cache_key, Option.getD]
  have hs := ((List.perm_insertionSort (· ≤ ·) l₁).trans
    (hp.trans (List.perm_insertionSort (· ≤ ·) l₂).symm))
  rw [List.eq_of_perm_of_sorted hs (List.sorted_insertionSort (· ≤ ·) l₁)
    (List.sorted_insertionSort (· ≤ ·) l₂)]

/-- Witness for C10: concrete renderer arguments, and two permuted
explicit face lists produce the same cache key. -/
theorem default_faces_behavior_witness :
    render_block_to_sprite (fun _ => none) ⟨fun _ => none, 7/8, 1/2, 32⟩ 1 "minecraft:stone" none =
      render_block_to_sprite (fun _ => none) ⟨fun _ => none, 7/8, 1/2, 32⟩ 1 "minecraft:stone"
        (some ["east", "south", "up"]) ∧
    cache_key "minecraft:stone" (some ["up", "east"]) = cache_key "minecraft:stone" (some ["east", "up"]) :=
  ⟨(default_faces_behavior (fun _ => none) ⟨fun _ => none, 7/8, 1/2, 32⟩ 1 "minecraft:stone").1,
   (default_faces_behavior (fun _ => none) ⟨fun _ => none, 7/8, 1/2, 32⟩ 1 "minecraft:stone").2.2
     ["up", "east"] ["east", "up"] (List.Perm.swap "east" "up" [])⟩

/-- C7: a face whose projected destination quadrilateral has edge-vector
determinant below `1e-6` in absolute value is skipped by the texture warp
— the sprite tile is unchanged — and the face loop continues with the
element's remaining faces. -/
theorem degenerate_quad_skips_face (ctx : RenderCtx) (modelTexs : List (String × J))
    (vf : List String) (fuel : Nat) (cx cy : ℕ) (fromC toC : Vec3)
    (faces : List (String × J)) (face_name : String)
    (face_data : List (String × J)) (t0 ref : String) (tw th : Nat)
    (rest : List String) (canvas : List DrawOp) (q : Quad)
    (hf : lookupJ faces face_name = some (.obj face_data))
    (hv : vf.contains face_name = true)
    (ht : lookupJ face_data "texture" = some (.str t0))
    (hl : textureLoop modelTexs fuel t0 = .done ref)
    (hr : strStarts ref "#" = false)
    (hi : ctx.texImgs ref = some (tw, th))
    (hq : quadOfList (projQuad ctx cx cy fromC toC face_name) = some q)
    (hdet : |quadDet q| < 1 / 1000000) :
    renderFaceIter ctx modelTexs vf fuel cx cy fromC toC faces face_name canvas = some canvas ∧
    renderFacesFold ctx modelTexs vf fuel cx cy fromC toC faces (face_name :: rest) canvas =
      renderFacesFold ctx modelTexs vf fuel cx cy fromC toC faces rest canvas := by
  have hiter : renderFaceIter ctx modelTexs vf fuel cx cy fromC toC faces face_name canvas
      = some canvas := by
    simp only [renderFaceIter, hf, hv, ht, hl, hr, hi, hq, Bool.not_true, Bool.false_eq_true,
      if_false, draw_textured_face]
    rw [if_pos hdet]
  refine ⟨hiter, ?_⟩
  simp only [renderFacesFold, hiter]

/-- Witness for C7: a flat (`y`-degenerate) east face of the cuboid
`(0,0,0)–(1,0,1)` projects to a zero-area quad and is skipped. -/
theorem degenerate_quad_skips_face_witness :
    (lookupJ [("east", J.obj [("texture", J.str "block/stone")])] "east"
      = some (.obj [("texture", J.str "block/stone")])) ∧
    renderFaceIter ⟨fun _ => some (16, 16), 7/8, 1/2, 32⟩ [] ["east"] 0 64 64 (0, 0, 0) (1, 0, 1)
      [("east", J.obj [("texture", J.str "block/stone")])] "east" [] = some [] := by
  have h := degenerate_quad_skips_face ⟨fun _ => some (16, 16), 7/8, 1/2, 32⟩ [] ["east"] 0 64 64
    (0, 0, 0) (1, 0, 1) [("east", J.obj [("texture", J.str "block/stone")])] "east"
    [("texture", J.str "block/stone")] "block/stone" "block/stone" 16 16 [] []
    ((64, 96), (92, 80), (92, 80), (64, 96))
    rfl rfl rfl rfl rfl rfl
    (by simp [projQuad, get_face_corners, isometric_projection, quadOfList]; norm_num)
    (by simp [quadDet])
  exact ⟨rfl, h.1⟩

/-- A position lies outside the declared grid bounds. -/
def outOfBounds (bd : Bounds) (x y z : Int) : Prop :=
  ¬ (bd.minX ≤ x ∧ x ≤ bd.maxX ∧ bd.minY ≤ y ∧ y ≤ bd.maxY ∧ bd.minZ ≤ z ∧ z ≤ bd.maxZ)

/-- The claimed visibility condition for the face of the block at
`(x, y, z)` towards the neighbor at `(nx, ny, nz)`: neighbor out of
bounds, or neighbor air, or transparent target with a non-identical
neighbor, or opaque target with a transparent neighbor. -/
def faceVisibleSpec (grid : Int → Int → Int → String) (bd : Bounds)
    (x y z nx ny nz : Int) : Prop :=
  outOfBounds bd nx ny nz ∨ grid nx ny nz = "minecraft:air" ∨
  (is_transparent (grid x y z) = true ∧ grid nx ny nz ≠ grid x y z) ∨
  (is_transparent (grid x y z) = false ∧ is_transparent (grid nx ny nz) = true)

theorem cullStep_mem_self (block n : String) (inB : Prop) [Decidable inB]
    (vf : List String) (face : String) (hnd : vf.Nodup) :
    face ∈ cullStep block n inB vf face ↔
      face ∈ vf ∧ (¬inB ∨ n = "minecraft:air" ∨
        (is_transparent block = true ∧ n ≠ block) ∨
        (is_transparent block = false ∧ is_transparent n = true)) := by
  unfold cullStep
  split_ifs <;> simp_all [List.Nodup.mem_erase_iff] <;> tauto

theorem cullStep_mem_other (block n : String) (inB : Prop) [Decidable inB]
    (vf : List String) (face g : String) (hne : g ≠ face) :
    g ∈ cullStep block n inB vf face ↔ g ∈ vf := by
  unfold cullStep
  split_ifs <;> simp [List.mem_erase_of_ne hne]

theorem cullStep_nodup (block n : String) (inB : Prop) [Decidable inB]
    (vf : List String) (face : String) (hnd : vf.Nodup) :
    (cullStep block n inB vf face).Nodup := by
  unfold cullStep
  split_ifs <;> first | exact hnd | exact hnd.erase face

/-- C2: for an in-bounds non-air block, the face-culling step of the
scene render marks each of the three rendered directions visible exactly
under the claimed condition, and never yields north, west or down. -/
theorem face_culling_matches_spec (grid : Int → Int → Int → String) (bd : Bounds)
    (x y z : Int)
    (hx : bd.minX ≤ x ∧ x ≤ bd.maxX) (hy : bd.minY ≤ y ∧ y ≤ bd.maxY)
    (hz : bd.minZ ≤ z ∧ z ≤ bd.maxZ)
    (hair : grid x y z ≠ "minecraft:air") :
    (("east" ∈ visibleFacesAt grid bd x y z) ↔ faceVisibleSpec grid bd x y z (x + 1) y z) ∧
    (("south" ∈ visibleFacesAt grid bd x y z) ↔ faceVisibleSpec grid bd x y z x y (z + 1)) ∧
    (("up" ∈ visibleFacesAt grid bd x y z) ↔ faceVisibleSpec grid bd x y z x (y + 1) z) ∧
    "north" ∉ visibleFacesAt grid bd x y z ∧
    "west" ∉ visibleFacesAt grid bd x y z ∧
    "down" ∉ visibleFacesAt grid bd x y z := by
  obtain ⟨hx1, hx2⟩ := hx
  obtain ⟨hy1, hy2⟩ := hy
  obtain ⟨hz1, hz2⟩ := hz
  have hoE : outOfBounds bd (x + 1) y z ↔ ¬(x + 1 ≤ bd.maxX) := by unfold outOfBounds; omega
  have hoS : outOfBounds bd x y (z + 1) ↔ ¬(z + 1 ≤ bd.maxZ) := by unfold outOfBounds; omega
  have hoU : outOfBounds bd x (y + 1) z ↔ ¬(y + 1 ≤ bd.maxY) := by unfold outOfBounds; omega
  have hnd0 : (["east", "south", "up"] : List String).Nodup := by decide
  have hnd1 := cullStep_nodup (grid x y z) (grid (x + 1) y z) (x + 1 ≤ bd.maxX)
    ["east", "south", "up"] "east" hnd0
  have hnd2 := cullStep_nodup (grid x y z) (grid x y (z + 1)) (z + 1 ≤ bd.maxZ)
    _ "south" hnd1
  simp only [faceVisibleSpec, hoE, hoS, hoU]
  unfold visibleFacesAt
  refine ⟨?_, ?_, ?_, ?_, ?_, ?_⟩
  · rw [cullStep_mem_other _ _ _ _ _ _ (by decide), cullStep_mem_other _ _ _ _ _ _ (by decide),
      cullStep_mem_self _ _ _ _ _ hnd0]
    simp <;> tauto
  · rw [cullStep_mem_other _ _ _ _ _ _ (by decide), cullStep_mem_self _ _ _ _ _ hnd1,
      cullStep_mem_other _ _ _ _ _ _ (by decide)]
    simp <;> tauto
  · rw [cullStep_mem_self _ _ _ _ _ hnd2, cullStep_mem_other _ _ _ _ _ _ (by decide),
      cullStep_mem_other _ _ _ _ _ _ (by decide)]
    simp <;> tauto
  · rw [cullStep_mem_other _ _ _ _ _ _ (by decide), cullStep_mem_other _ _ _ _ _ _ (by decide),
      cullStep_mem_other _ _ _ _ _ _ (by decide)]
    decide
  · rw [cullStep_mem_other _ _ _ _ _ _ (by decide), cullStep_mem_other _ _ _ _ _ _ (by decide),
      cullStep_mem_other _ _ _ _ _ _ (by decide)]
    decide
  · rw [cullStep_mem_other _ _ _ _ _ _ (by decide), cullStep_mem_other _ _ _ _ _ _ (by decide),
      cullStep_mem_other _ _ _ _ _ _ (by decide)]
    decide

/-- Witness for C2: a 1×1×2 column of stone under glass; the stone's up
face is visible because glass is transparent. -/
theorem face_culling_matches_spec_witness :
    ("up" ∈ visibleFacesAt
      (fun _ y _ => if y = 0 then "minecraft:stone" else "minecraft:glass")
      ⟨0, 0, 0, 1, 0, 0⟩ 0 0 0) ↔
    faceVisibleSpec
      (fun _ y _ => if y = 0 then "minecraft:stone" else "minecraft:glass")
      ⟨0, 0, 0, 1, 0, 0⟩ 0 0 0 0 1 0 :=
  (face_culling_matches_spec
    (fun _ y _ => if y = 0 then "minecraft:stone" else "minecraft:glass")
    ⟨0, 0, 0, 1, 0, 0⟩ 0 0 0
    ⟨by decide, by decide⟩ ⟨by decide, by decide⟩ ⟨by decide, by decide⟩
    (by simp)).2.2.1

/-- C4: a block identifier with no manual-override entry, no model asset
under the raw/block/item names and no fluid or sign fallback resolves to
the empty model `{}` (after the logged diagnostic), sprite rendering
returns no sprite for it, and the scene sweep leaves the canvas unchanged
at any position holding it and moves on. -/
theorem unknown_block_renders_nothing (assets : String → Option J) (ctx : RenderCtx)
    (fuel : Nat) (block_name : String) (vf : Option (List String))
    (hmap : lookupStr BLOCK_MODEL_MAP (pyReplace block_name "minecraft:" "") = none)
    (hitem : strStarts block_name "item/" = false)
    (hraw : pyFalsy (get_model_file assets block_name) = true)
    (hitm : pyFalsy (get_model_file assets
      ("item/" ++ pyReplace (pyReplace block_name "minecraft:" "") "block/" "")) = true)
    (hw : block_name ≠ "minecraft:water") (hl : block_name ≠ "minecraft:lava")
    (hs : substrB "_sign" block_name = false) :
    parse_model assets (fuel + 1) block_name = some (J.obj []) ∧
    render_block_to_sprite assets ctx (fuel + 1) block_name vf = some none ∧
    ∀ (grid : Int → Int → Int → String) (bd : Bounds) (canvas : List PasteEvent)
      (p : Int × Int × Int), grid p.1 p.2.1 p.2.2 = block_name →
      sceneStep assets ctx (fuel + 1) grid bd canvas p = canvas := by
  have hp : parse_model assets (fuel + 1) block_name = some (J.obj []) := by
    unfold parse_model
    simp only [hmap, hraw, hitem, Bool.not_false, Bool.true_and, if_true, hitm, hs]
    simp [hw, hl]
  have hr : ∀ vf' : Option (List String),
      render_block_to_sprite assets ctx (fuel + 1) block_name vf' = some none := by
    intro vf'
    unfold render_block_to_sprite
    simp [hp, jTruthy]
  refine ⟨hp, hr vf, ?_⟩
  intro grid bd canvas p hgp
  obtain ⟨px, py, pz⟩ := p
  dsimp only at hgp
  unfold sceneStep pasteOf
  dsimp only
  by_cases hb : grid px py pz = "minecraft:air"
  · simp [hb]
  · simp only [hb, if_false]
    rw [hgp, hr]


/-- Witness for C4: `minecraft:unknownium` against an empty asset store. -/
theorem unknown_block_renders_nothing_witness :
    parse_model (fun _ => none) 1 "minecraft:unknownium" = some (J.obj []) ∧
    render_block_to_sprite (fun _ => none) ⟨fun _ => none, 7/8, 1/2, 32⟩ 1
      "minecraft:unknownium" none = some none :=
  ⟨(unknown_block_renders_nothing (fun _ => none) ⟨fun _ => none, 7/8, 1/2, 32⟩ 0
      "minecraft:unknownium" none rfl rfl rfl rfl (by decide) (by decide) (by decide)).1,
   (unknown_block_renders_nothing (fun _ => none) ⟨fun _ => none, 7/8, 1/2, 32⟩ 0
      "minecraft:unknownium" none rfl rfl rfl rfl (by decide) (by decide) (by decide)).2.1⟩

/-! ### Association-list lemmas for the deep-merge proofs -/

theorem lookupJ_none_iff (l : List (String × J)) (k : String) :
    lookupJ l k = none ↔ keyMem k l = false := by
  induction l with
  | nil => simp [lookupJ, keyMem]
  | cons p t ih =>
    obtain ⟨k', v⟩ := p
    by_cases h : k' = k <;> simp [lookupJ, keyMem, h, ih]

theorem lookupJ_setKey_self (l : List (String × J)) (k : String) (v : J) :
    lookupJ (setKey l k v) k = some v := by
  induction l with
  | nil => simp [setKey, lookupJ]
  | cons p t ih =>
    obtain ⟨k', v'⟩ := p
    by_cases h : k' = k <;> simp [setKey, lookupJ, h, ih]

theorem lookupJ_setKey_ne (l : List (String × J)) (k k' : String) (v : J)
    (h : k' ≠ k) : lookupJ (setKey l k v) k' = lookupJ l k' := by
  have hks : ¬(k = k') := fun he => h he.symm
  induction l with
  | nil => simp [setKey, lookupJ, hks]
  | cons p t ih =>
    obtain ⟨k₀, v₀⟩ := p
    by_cases h0 : k₀ = k
    · subst h0
      simp [setKey, lookupJ, hks]
    · by_cases h1 : k₀ = k' <;> simp [setKey, lookupJ, h0, h1, ih, h]

theorem setKey_eq_self (l : List (String × J)) (k : String) (v : J)
    (h : lookupJ l k = some v) : setKey l k v = l := by
  induction l with
  | nil => simp [lookupJ] at h
  | cons p t ih =>
    obtain ⟨k₀, v₀⟩ := p
    by_cases h0 : k₀ = k
    · subst h0
      simp [lookupJ] at h
      simp [setKey, h]
    · simp [lookupJ, h0] at h
      simp [setKey, h0, ih h]

theorem setKey_fresh (l : List (String × J)) (k : String) (v : J)
    (h : lookupJ l k = none) : setKey l k v = l ++ [(k, v)] := by
  induction l with
  | nil => simp [setKey]
  | cons p t ih =>
    obtain ⟨k₀, v₀⟩ := p
    by_cases h0 : k₀ = k
    · simp [lookupJ, h0] at h
    · simp [lookupJ, h0] at h
      simp [setKey, h0, ih h]

theorem setdefaultJ_present (l : List (String × J)) (k : String) (d w : J)
    (h : lookupJ l k = some w) : setdefaultJ l k d = l := by
  simp [setdefaultJ, h]

theorem setdefaultJ_absent (l : List (String × J)) (k : String) (d : J)
    (h : lookupJ l k = none) : setdefaultJ l k d = l ++ [(k, d)] := by
  simp [setdefaultJ, h]

theorem lookupJ_append_left (l₁ l₂ : List (String × J)) (k : String) (v : J)
    (h : lookupJ l₁ k = some v) : lookupJ (l₁ ++ l₂) k = some v := by
  induction l₁ with
  | nil => simp [lookupJ] at h
  | cons p t ih =>
    obtain ⟨k₀, v₀⟩ := p
    by_cases h0 : k₀ = k
    · subst h0
      simp [lookupJ] at h ⊢
      exact h
    · simp [lookupJ, h0] at h ⊢
      exact ih h

theorem lookupJ_append_right (l₁ l₂ : List (String × J)) (k : String)
    (h : lookupJ l₁ k = none) : lookupJ (l₁ ++ l₂) k = lookupJ l₂ k := by
  induction l₁ with
  | nil => simp
  | cons p t ih =>
    obtain ⟨k₀, v₀⟩ := p
    by_cases h0 : k₀ = k
    · simp [lookupJ, h0] at h
    · simp [lookupJ, h0] at h ⊢
      exact ih h

theorem lookupJ_setdefault_self (l : List (String × J)) (k : String) (d : J) :
    lookupJ (setdefaultJ l k d) k = some ((lookupJ l k).getD d) := by
  match h : lookupJ l k with
  | some w => rw [setdefaultJ_present l k d w h]; simp [h]
  | none =>
    rw [setdefaultJ_absent l k d h, lookupJ_append_right l _ k h]
    simp [lookupJ]

theorem lookupJ_setdefault_ne (l : List (String × J)) (k k' : String) (d : J)
    (h : k' ≠ k) : lookupJ (setdefaultJ l k d) k' = lookupJ l k' := by
  match h0 : lookupJ l k with
  | some w => rw [setdefaultJ_present l k d w h0]
  | none =>
    rw [setdefaultJ_absent l k d h0]
    match h1 : lookupJ l k' with
    | some w => exact lookupJ_append_left l _ k' w h1
    | none =>
      rw [lookupJ_append_right l _ k' h1]
      simp [lookupJ, h1, show ¬(k = k') from fun he => h he.symm]

theorem setKey_appended (l : List (String × J)) (k : String) (d v : J)
    (h : lookupJ l k = none) : setKey (l ++ [(k, d)]) k v = l ++ [(k, v)] := by
  induction l with
  | nil => simp [setKey]
  | cons p t ih =>
    obtain ⟨k₀, v₀⟩ := p
    by_cases h0 : k₀ = k
    · simp [lookupJ, h0] at h
    · simp [lookupJ, h0] at h
      simp [setKey, h0, ih h]

theorem keysNodup_cons (k : String) (v : J) (t : List (String × J)) :
    keysNodup ((k, v) :: t) = true ↔ keyMem k t = false ∧ keysNodup t = true := by
  simp [keysNodup]

theorem keyMem_false_ne (l : List (String × J)) (k k' : String) (v : J)
    (h : keyMem k l = false) (hm : (k', v) ∈ l) : k' ≠ k := by
  have h2 := List.any_eq_false.mp h (k', v) hm
  simpa using h2

theorem nodup_lookup_mem (l : List (String × J)) (k : String) (v : J)
    (hnd : keysNodup l = true) (hm : (k, v) ∈ l) : lookupJ l k = some v := by
  induction l with
  | nil => simp at hm
  | cons p t ih =>
    obtain ⟨k₀, v₀⟩ := p
    rw [keysNodup_cons] at hnd
    rcases List.mem_cons.mp hm with hm | hm
    · rw [Prod.mk.injEq] at hm
      obtain ⟨h1, h2⟩ := hm
      subst h1
      subst h2
      simp [lookupJ]
    · have hne : ¬(k₀ = k) := fun he => keyMem_false_ne t k₀ k v hnd.1 hm he.symm
      simp only [lookupJ, hne, if_false]
      exact ih hnd.2 hm

theorem keyMem_cons_false (k k₀ : String) (v₀ : J) (t : List (String × J)) :
    keyMem k ((k₀, v₀) :: t) = false ↔ ¬(k₀ = k) ∧ keyMem k t = false := by
  simp [keyMem]

/-- A successful `deepAssignItems` on an object target yields an object,
and every key not occurring in the source keeps its target binding. -/
theorem da_preserve (src : List (String × J)) (t : List (String × J)) (u : J)
    (k : String) (h : deepAssignItems (J.obj t) src = some u)
    (hk : keyMem k src = false) :
    ∃ ul, u = J.obj ul ∧ lookupJ ul k = lookupJ t k := by
  induction src generalizing t with
  | nil =>
    simp only [deepAssignItems, Option.some.injEq] at h
    exact ⟨t, h.symm, rfl⟩
  | cons p rest ih =>
    obtain ⟨k₀, v₀⟩ := p
    rw [keyMem_cons_false] at hk
    obtain ⟨hk0, hkr⟩ := hk
    have hkne : k ≠ k₀ := fun he => hk0 he.symm
    match v₀ with
    | .str s =>
      simp only [deepAssignItems] at h
      obtain ⟨ul, hu, hl⟩ := ih (setKey t k₀ (.str s)) h hkr
      exact ⟨ul, hu, by rw [hl, lookupJ_setKey_ne t k₀ k _ hkne]⟩
    | .num q =>
      simp only [deepAssignItems] at h
      obtain ⟨ul, hu, hl⟩ := ih (setKey t k₀ (.num q)) h hkr
      exact ⟨ul, hu, by rw [hl, lookupJ_setKey_ne t k₀ k _ hkne]⟩
    | .bool b =>
      simp only [deepAssignItems] at h
      obtain ⟨ul, hu, hl⟩ := ih (setKey t k₀ (.bool b)) h hkr
      exact ⟨ul, hu, by rw [hl, lookupJ_setKey_ne t k₀ k _ hkne]⟩
    | .arr a =>
      simp only [deepAssignItems] at h
      obtain ⟨ul, hu, hl⟩ := ih (setKey t k₀ (.arr a)) h hkr
      exact ⟨ul, hu, by rw [hl, lookupJ_setKey_ne t k₀ k _ hkne]⟩
    | .obj o =>
      simp only [deepAssignItems] at h
      rw [lookupJ_setdefault_self t k₀ (J.obj [])] at h
      dsimp only at h
      match hda : deepAssignItems ((lookupJ t k₀).getD (.obj [])) o with
      | none =>
        rw [hda] at h
        simp at h
      | some tv' =>
        rw [hda] at h
        dsimp only at h
        obtain ⟨ul, hu, hl⟩ := ih (setKey (setdefaultJ t k₀ (.obj [])) k₀ tv') h hkr
        refine ⟨ul, hu, ?_⟩
        rw [hl, lookupJ_setKey_ne _ k₀ k _ hkne, lookupJ_setdefault_ne t k₀ k _ hkne]

/-- A successful `deepAssignItems`: a source key bound to a non-object
value ends up bound to exactly that value in the result. -/
theorem da_scalar (src : List (String × J)) (t : List (String × J)) (u : J)
    (k : String) (v : J) (h : deepAssignItems (J.obj t) src = some u)
    (hnd : keysNodup src = true) (hv : lookupJ src k = some v)
    (hobj : isObj v = false) :
    ∃ ul, u = J.obj ul ∧ lookupJ ul k = some v := by
  induction src generalizing t with
  | nil => simp [lookupJ] at hv
  | cons p rest ih =>
    obtain ⟨k₀, v₀⟩ := p
    rw [keysNodup_cons] at hnd
    obtain ⟨hnd1, hnd2⟩ := hnd
    by_cases hk0 : k₀ = k
    · subst hk0
      rw [show lookupJ ((k₀, v₀) :: rest) k₀ = some v₀ from by simp [lookupJ]] at hv
      have hveq : v₀ = v := by injection hv
      subst hveq
      match v₀, hobj with
      | .str s, _ =>
        simp only [deepAssignItems] at h
        obtain ⟨ul, hu, hl⟩ := da_preserve rest (setKey t k₀ (.str s)) u k₀ h hnd1
        exact ⟨ul, hu, by rw [hl, lookupJ_setKey_self]⟩
      | .num q, _ =>
        simp only [deepAssignItems] at h
        obtain ⟨ul, hu, hl⟩ := da_preserve rest (setKey t k₀ (.num q)) u k₀ h hnd1
        exact ⟨ul, hu, by rw [hl, lookupJ_setKey_self]⟩
      | .bool b, _ =>
        simp only [deepAssignItems] at h
        obtain ⟨ul, hu, hl⟩ := da_preserve rest (setKey t k₀ (.bool b)) u k₀ h hnd1
        exact ⟨ul, hu, by rw [hl, lookupJ_setKey_self]⟩
      | .arr a, _ =>
        simp only [deepAssignItems] at h
        obtain ⟨ul, hu, hl⟩ := da_preserve rest (setKey t k₀ (.arr a)) u k₀ h hnd1
        exact ⟨ul, hu, by rw [hl, lookupJ_setKey_self]⟩
    · rw [show lookupJ ((k₀, v₀) :: rest) k = lookupJ rest k from by
        simp [lookupJ, hk0]] at hv
      match v₀ with
      | .str s =>
        simp only [deepAssignItems] at h
        exact ih (setKey t k₀ (.str s)) h hnd2 hv
      | .num q =>
        simp only [deepAssignItems] at h
        exact ih (setKey t k₀ (.num q)) h hnd2 hv
      | .bool b =>
        simp only [deepAssignItems] at h
        exact ih (setKey t k₀ (.bool b)) h hnd2 hv
      | .arr a =>
        simp only [deepAssignItems] at h
        exact ih (setKey t k₀ (.arr a)) h hnd2 hv
      | .obj o =>
        simp only [deepAssignItems] at h
        rw [lookupJ_setdefault_self t k₀ (J.obj [])] at h
        dsimp only at h
        match hda : deepAssignItems ((lookupJ t k₀).getD (.obj [])) o with
        | none =>
          rw [hda] at h
          simp at h
        | some tv' =>
          rw [hda] at h
          dsimp only at h
          exact ih (setKey (setdefaultJ t k₀ (.obj [])) k₀ tv') h hnd2 hv

/-- A successful `deepAssignItems`: a source key bound to an object,
whose target binding is also an object, ends up bound to the recursive
merge of the two objects. -/
theorem da_objmerge (src : List (String × J)) (t : List (String × J)) (u : J)
    (k : String) (pp cc : List (String × J))
    (h : deepAssignItems (J.obj t) src = some u) (hnd : keysNodup src = true)
    (hc : lookupJ src k = some (.obj cc)) (hp : lookupJ t k = some (.obj pp)) :
    ∃ mm ul, deepAssignItems (J.obj pp) cc = some mm ∧ u = J.obj ul ∧
      lookupJ ul k = some mm := by
  induction src generalizing t with
  | nil => simp [lookupJ] at hc
  | cons p rest ih =>
    obtain ⟨k₀, v₀⟩ := p
    rw [keysNodup_cons] at hnd
    obtain ⟨hnd1, hnd2⟩ := hnd
    by_cases hk0 : k₀ = k
    · subst hk0
      rw [show lookupJ ((k₀, v₀) :: rest) k₀ = some v₀ from by simp [lookupJ]] at hc
      obtain rfl : v₀ = J.obj cc := by injection hc
      simp only [deepAssignItems] at h
      rw [setdefaultJ_present t k₀ _ _ hp] at h
      rw [hp] at h
      dsimp only at h
      match hda : deepAssignItems (J.obj pp) cc with
      | none =>
        rw [hda] at h
        simp at h
      | some mm =>
        rw [hda] at h
        dsimp only at h
        obtain ⟨ul, hu, hl⟩ := da_preserve rest (setKey t k₀ mm) u k₀ h hnd1
        exact ⟨mm, ul, rfl, hu, by rw [hl, lookupJ_setKey_self]⟩
    · have hkne : k ≠ k₀ := fun he => hk0 he.symm
      rw [show lookupJ ((k₀, v₀) :: rest) k = lookupJ rest k from by
        simp [lookupJ, hk0]] at hc
      match v₀ with
      | .str s =>
        simp only [deepAssignItems] at h
        exact ih (setKey t k₀ (.str s)) h hnd2 hc
          (by rw [lookupJ_setKey_ne t k₀ k _ hkne]; exact hp)
      | .num q =>
        simp only [deepAssignItems] at h
        exact ih (setKey t k₀ (.num q)) h hnd2 hc
          (by rw [lookupJ_setKey_ne t k₀ k _ hkne]; exact hp)
      | .bool b =>
        simp only [deepAssignItems] at h
        exact ih (setKey t k₀ (.bool b)) h hnd2 hc
          (by rw [lookupJ_setKey_ne t k₀ k _ hkne]; exact hp)
      | .arr a =>
        simp only [deepAssignItems] at h
        exact ih (setKey t k₀ (.arr a)) h hnd2 hc
          (by rw [lookupJ_setKey_ne t k₀ k _ hkne]; exact hp)
      | .obj o =>
        simp only [deepAssignItems] at h
        rw [lookupJ_setdefault_self t k₀ (J.obj [])] at h
        dsimp only at h
        match hda : deepAssignItems ((lookupJ t k₀).getD (.obj [])) o with
        | none =>
          rw [hda] at h
          simp at h
        | some tv' =>
          rw [hda] at h
          dsimp only at h
          refine ih (setKey (setdefaultJ t k₀ (.obj [])) k₀ tv') h hnd2 hc ?_
          rw [lookupJ_setKey_ne _ k₀ k _ hkne, lookupJ_setdefault_ne t k₀ k _ hkne]
          exact hp

/-- C3: the deep merge used by model resolution (the child definition
merged over its resolved parent via `deep_assign(parent, child)`)
satisfies, per key: a non-mapping child value wins, a parent-only key is
inherited unchanged, and two mappings at the same key merge key-by-key
(the binding is the recursive merge, not the child mapping wholesale). -/
theorem deep_merge_clauses (p c m : List (String × J))
    (hm : deep_assign (J.obj p) (J.obj c) = some (J.obj m))
    (hnd : keysNodup c = true) :
    (∀ k v, lookupJ c k = some v → isObj v = false → lookupJ m k = some v) ∧
    (∀ k, lookupJ c k = none → lookupJ m k = lookupJ p k) ∧
    (∀ k pp cc, lookupJ p k = some (.obj pp) → lookupJ c k = some (.obj cc) →
      ∃ mm, deepAssignItems (J.obj pp) cc = some mm ∧ lookupJ m k = some mm) := by
  have hm' : deepAssignItems (J.obj p) c = some (J.obj m) := hm
  refine ⟨?_, ?_, ?_⟩
  · intro k v hv hobj
    obtain ⟨ul, hu, hl⟩ := da_scalar c p (J.obj m) k v hm' hnd hv hobj
    injection hu with hu2
    subst hu2
    exact hl
  · intro k hk
    obtain ⟨ul, hu, hl⟩ := da_preserve c p (J.obj m) k hm' ((lookupJ_none_iff c k).mp hk)
    injection hu with hu2
    subst hu2
    exact hl
  · intro k pp cc hp hc
    obtain ⟨mm, ul, hda, hu, hl⟩ := da_objmerge c p (J.obj m) k pp cc hm' hnd hc hp
    injection hu with hu2
    subst hu2
    exact ⟨mm, hda, hl⟩

/-- Witness for C3 on a two-level merge: child texture overrides, parent
key inherited, sibling child key added. -/
theorem deep_merge_clauses_witness :
    lookupJ [("textures", J.obj [("all", J.str "b"), ("top", J.str "t")]),
             ("x", J.str "1"), ("y", J.str "2")] "y" = some (J.str "2") ∧
    lookupJ [("textures", J.obj [("all", J.str "b"), ("top", J.str "t")]),
             ("x", J.str "1"), ("y", J.str "2")] "x" =
      lookupJ [("textures", J.obj [("all", J.str "a"), ("top", J.str "t")]),
               ("x", J.str "1")] "x" := by
  have hm : deep_assign
      (J.obj [("textures", J.obj [("all", J.str "a"), ("top", J.str "t")]), ("x", J.str "1")])
      (J.obj [("textures", J.obj [("all", J.str "b")]), ("y", J.str "2")]) =
      some (J.obj [("textures", J.obj [("all", J.str "b"), ("top", J.str "t")]),
                   ("x", J.str "1"), ("y", J.str "2")]) := by
    simp [deep_assign, deepAssignItems, setdefaultJ, setKey, lookupJ]
  have h := deep_merge_clauses _ _ _ hm (by decide)
  exact ⟨h.1 "y" (J.str "2") rfl rfl, h.2.1 "x" rfl⟩

/-! ### Merge identity and idempotence (C6) -/

theorem jWF_obj_iff (l : List (String × J)) :
    jWF (J.obj l) = true ↔ keysNodup l = true ∧ jWF.jWFList l = true := by
  simp [jWF]

theorem jWFList_cons (k : String) (v : J) (t : List (String × J)) :
    jWF.jWFList ((k, v) :: t) = true ↔ jWF v = true ∧ jWF.jWFList t = true := by
  simp [jWF.jWFList]

theorem jWFList_mem (l : List (String × J)) (k : String) (v : J)
    (h : jWF.jWFList l = true) (hm : (k, v) ∈ l) : jWF v = true := by
  induction l with
  | nil => simp at hm
  | cons p t ih =>
    obtain ⟨k₀, v₀⟩ := p
    rw [jWFList_cons] at h
    rcases List.mem_cons.mp hm with hm' | hm'
    · injection hm' with h1 h2
      subst h2
      exact h.1
    · exact ih h.2 hm'

theorem keyMem_append (k : String) (l₁ l₂ : List (String × J)) :
    keyMem k (l₁ ++ l₂) = (keyMem k l₁ || keyMem k l₂) := by
  simp [keyMem, List.any_append]

/-- Merging a well-formed object over itself, item by item, changes
nothing: every source item writes back the value the target already
holds. -/
theorem da_self (src : List (String × J)) (a : List (String × J))
    (hsub : ∀ kv : String × J, kv ∈ src → lookupJ a kv.1 = some kv.2 ∧ jWF kv.2 = true) :
    deepAssignItems (J.obj a) src = some (J.obj a) := by
  match src with
  | [] => simp [deepAssignItems]
  | (k, v) :: rest =>
    obtain ⟨hk, hwv⟩ := hsub (k, v) (List.mem_cons_self _ _)
    have hrest : ∀ kv : String × J, kv ∈ rest →
        lookupJ a kv.1 = some kv.2 ∧ jWF kv.2 = true :=
      fun kv hm => hsub kv (List.mem_cons_of_mem _ hm)
    match v, hk, hwv with
    | .str s, hk, _ =>
      simp only [deepAssignItems]
      rw [setKey_eq_self a k _ hk]
      exact da_self rest a hrest
    | .num q, hk, _ =>
      simp only [deepAssignItems]
      rw [setKey_eq_self a k _ hk]
      exact da_self rest a hrest
    | .bool b, hk, _ =>
      simp only [deepAssignItems]
      rw [setKey_eq_self a k _ hk]
      exact da_self rest a hrest
    | .arr ar, hk, _ =>
      simp only [deepAssignItems]
      rw [setKey_eq_self a k _ hk]
      exact da_self rest a hrest
    | .obj o, hk, hwv =>
      simp only [deepAssignItems]
      rw [setdefaultJ_present a k _ _ hk, hk]
      dsimp only
      have hnd_o : keysNodup o = true := ((jWF_obj_iff o).mp hwv).1
      have hwl_o : jWF.jWFList o = true := ((jWF_obj_iff o).mp hwv).2
      have hsubo : ∀ kv : String × J, kv ∈ o →
          lookupJ o kv.1 = some kv.2 ∧ jWF kv.2 = true := by
        intro kv hmo
        obtain ⟨k1, v1⟩ := kv
        exact ⟨nodup_lookup_mem o k1 v1 hnd_o hmo, jWFList_mem o k1 v1 hwl_o hmo⟩
      rw [da_self o o hsubo]
      dsimp only
      rw [setKey_eq_self a k _ hk]
      exact da_self rest a hrest
termination_by sizeOf src

/-- Merging a well-formed object into a target none of whose keys it
shares appends it item by item. -/
theorem da_fresh (src : List (String × J)) (t : List (String × J))
    (hnd : keysNodup src = true) (hwl : jWF.jWFList src = true)
    (hdisj : ∀ kv : String × J, kv ∈ src → keyMem kv.1 t = false) :
    deepAssignItems (J.obj t) src = some (J.obj (t ++ src)) := by
  match src with
  | [] => simp [deepAssignItems]
  | (k, v) :: rest =>
    have hkt : keyMem k t = false := hdisj (k, v) (List.mem_cons_self _ _)
    have hlt : lookupJ t k = none := (lookupJ_none_iff t k).mpr hkt
    rw [keysNodup_cons] at hnd
    obtain ⟨hnd1, hnd2⟩ := hnd
    obtain ⟨hwv, hwr⟩ := (jWFList_cons k v rest).mp hwl
    have hdisj' : ∀ w : J, ∀ kv : String × J, kv ∈ rest →
        keyMem kv.1 (t ++ [(k, w)]) = false := by
      intro w kv hm
      obtain ⟨k1, v1⟩ := kv
      have h1 : keyMem k1 t = false := hdisj (k1, v1) (List.mem_cons_of_mem _ hm)
      have h2 : k1 ≠ k := keyMem_false_ne rest k k1 v1 hnd1 hm
      rw [keyMem_append, h1]
      simp [keyMem, show ¬(k = k1) from fun he => h2 he.symm]
    have happ : ∀ w : J, (t ++ [(k, w)]) ++ rest = t ++ (k, w) :: rest := by
      intro w
      simp
    match v, hwv with
    | .str s, _ =>
      simp only [deepAssignItems]
      rw [setKey_fresh t k _ hlt, da_fresh rest (t ++ [(k, J.str s)]) hnd2 hwr (hdisj' _), happ]
    | .num q, _ =>
      simp only [deepAssignItems]
      rw [setKey_fresh t k _ hlt, da_fresh rest (t ++ [(k, J.num q)]) hnd2 hwr (hdisj' _), happ]
    | .bool b, _ =>
      simp only [deepAssignItems]
      rw [setKey_fresh t k _ hlt, da_fresh rest (t ++ [(k, J.bool b)]) hnd2 hwr (hdisj' _), happ]
    | .arr ar, _ =>
      simp only [deepAssignItems]
      rw [setKey_fresh t k _ hlt, da_fresh rest (t ++ [(k, J.arr ar)]) hnd2 hwr (hdisj' _), happ]
    | .obj o, hwv =>
      simp only [deepAssignItems]
      rw [setdefaultJ_absent t k _ hlt, lookupJ_append_right t _ k hlt]
      rw [show lookupJ [(k, J.obj [])] k = some (J.obj []) from by simp [lookupJ]]
      dsimp only
      have hnd_o : keysNodup o = true := ((jWF_obj_iff o).mp hwv).1
      have hwl_o : jWF.jWFList o = true := ((jWF_obj_iff o).mp hwv).2
      rw [da_fresh o [] hnd_o hwl_o (fun kv _ => rfl)]
      dsimp only
      rw [setKey_appended t k _ _ hlt,
        da_fresh rest (t ++ [(k, J.obj ([] ++ o))]) hnd2 hwr (hdisj' _), happ]
      simp
termination_by sizeOf src

/-- C6: for every well-formed model definition `A`, merging the empty
definition over `A` yields `A`, merging `A` over the empty definition
yields `A`, and merging `A` over `A` yields `A`. -/
theorem merge_identity_idempotent (a : List (String × J))
    (hwf : jWF (J.obj a) = true) :
    deep_assign (J.obj a) (J.obj []) = some (J.obj a) ∧
    deep_assign (J.obj []) (J.obj a) = some (J.obj a) ∧
    deep_assign (J.obj a) (J.obj a) = some (J.obj a) := by
  obtain ⟨hnd, hwl⟩ := (jWF_obj_iff a).mp hwf
  refine ⟨by simp [deep_assign, deepAssignItems], ?_, ?_⟩
  · have h := da_fresh a [] hnd hwl (fun kv _ => rfl)
    simpa [deep_assign] using h
  · have hsub : ∀ kv : String × J, kv ∈ a →
        lookupJ a kv.1 = some kv.2 ∧ jWF kv.2 = true := by
      intro kv hm
      obtain ⟨k1, v1⟩ := kv
      exact ⟨nodup_lookup_mem a k1 v1 hnd hm, jWFList_mem a k1 v1 hwl hm⟩
    exact da_self a a hsub

/-- Witness for C6 at a concrete two-key model definition. -/
theorem merge_identity_idempotent_witness :
    deep_assign (J.obj [("textures", J.obj [("all", J.str "x")]), ("n", J.num 3)])
        (J.obj []) =
      some (J.obj [("textures", J.obj [("all", J.str "x")]), ("n", J.num 3)]) ∧
    deep_assign (J.obj [])
        (J.obj [("textures", J.obj [("all", J.str "x")]), ("n", J.num 3)]) =
      some (J.obj [("textures", J.obj [("all", J.str "x")]), ("n", J.num 3)]) ∧
    deep_assign (J.obj [("textures", J.obj [("all", J.str "x")]), ("n", J.num 3)])
        (J.obj [("textures", J.obj [("all", J.str "x")]), ("n", J.num 3)]) =
      some (J.obj [("textures", J.obj [("all", J.str "x")]), ("n", J.num 3)]) :=
  merge_identity_idempotent
    [("textures", J.obj [("all", J.str "x")]), ("n", J.num 3)]
    (by simp [jWF, jWF.jWFList, keysNodup, keyMem])

/-! ### Scene sweep order (C8) and crop/empty output (C9) -/

/-- Strict visiting order of the scene sweep: ascending Y, then Z within
equal Y, then X within equal (Y, Z). Positions are `(x, y, z)` triples. -/
def scanLt (p q : Int × Int × Int) : Prop :=
  p.2.1 < q.2.1 ∨ (p.2.1 = q.2.1 ∧ (p.2.2 < q.2.2 ∨ (p.2.2 = q.2.2 ∧ p.1 < q.1)))

theorem mem_intRange (lo hi v : Int) : v ∈ intRange lo hi ↔ lo ≤ v ∧ v ≤ hi := by
  simp only [intRange, List.mem_map, List.mem_range]
  constructor
  · rintro ⟨i, hilt, rfl⟩
    constructor <;> omega
  · rintro ⟨h1, h2⟩
    refine ⟨(v - lo).toNat, ?_, ?_⟩ <;> omega

theorem pairwise_intRange (lo hi : Int) : (intRange lo hi).Pairwise (· < ·) := by
  unfold intRange
  rw [List.pairwise_map]
  refine (List.pairwise_lt_range (hi + 1 - lo).toNat).imp ?_
  intro a b hab
  omega

theorem pairwise_flatMap_of {α β : Type} (l : List α) (f : α → List β)
    (S : β → β → Prop) (h1 : ∀ a ∈ l, (f a).Pairwise S)
    (h2 : l.Pairwise (fun a b => ∀ x ∈ f a, ∀ y ∈ f b, S x y)) :
    (l.flatMap f).Pairwise S := by
  induction l with
  | nil => simp
  | cons a l ih =>
    rw [List.flatMap_cons, List.pairwise_append]
    rw [List.pairwise_cons] at h2
    refine ⟨h1 a (List.mem_cons_self a l), ih (fun b hb => h1 b (List.mem_cons_of_mem a hb)) h2.2, ?_⟩
    intro x hx y hy
    obtain ⟨b, hb, hyb⟩ := List.mem_flatMap.mp hy
    exact h2.1 b hb x hx y hyb

/-- C8 support: the sweep visits exactly the grid box, in strictly
increasing (Y, Z, X)-lexicographic order. -/
theorem scanPositions_sorted (bd : Bounds) : (scanPositions bd).Pairwise scanLt := by
  unfold scanPositions
  apply pairwise_flatMap_of
  · intro y _
    apply pairwise_flatMap_of
    · intro z _
      rw [List.pairwise_map]
      exact (pairwise_intRange bd.minX bd.maxX).imp (fun h => by
        exact Or.inr ⟨rfl, Or.inr ⟨rfl, h⟩⟩)
    · exact (pairwise_intRange bd.minZ bd.maxZ).imp (fun h => by
        intro p hp q hq
        simp only [List.mem_map] at hp hq
        obtain ⟨xp, _, rfl⟩ := hp
        obtain ⟨xq, _, rfl⟩ := hq
        exact Or.inr ⟨rfl, Or.inl h⟩)
  · exact (pairwise_intRange bd.minY bd.maxY).imp (fun h => by
      intro p hp q hq
      simp only [List.mem_flatMap, List.mem_map] at hp hq
      obtain ⟨zp, _, xp, _, rfl⟩ := hp
      obtain ⟨zq, _, xq, _, rfl⟩ := hq
      exact Or.inl h)

theorem scanPositions_mem (bd : Bounds) (p : Int × Int × Int) :
    p ∈ scanPositions bd ↔
      bd.minX ≤ p.1 ∧ p.1 ≤ bd.maxX ∧ bd.minY ≤ p.2.1 ∧ p.2.1 ≤ bd.maxY ∧
      bd.minZ ≤ p.2.2 ∧ p.2.2 ≤ bd.maxZ := by
  obtain ⟨x, y, z⟩ := p
  simp only [scanPositions, List.mem_flatMap, List.mem_map]
  constructor
  · rintro ⟨y', hy, z', hz, x', hx, heq⟩
    rw [Prod.mk.injEq] at heq
    obtain ⟨rfl, heq2⟩ := heq
    rw [Prod.mk.injEq] at heq2
    obtain ⟨rfl, rfl⟩ := heq2
    rw [mem_intRange] at hy hz hx
    exact ⟨hx.1, hx.2, hy.1, hy.2, hz.1, hz.2⟩
  · rintro ⟨h1, h2, h3, h4, h5, h6⟩
    exact ⟨y, (mem_intRange _ _ _).mpr ⟨h3, h4⟩, z, (mem_intRange _ _ _).mpr ⟨h5, h6⟩,
      x, (mem_intRange _ _ _).mpr ⟨h1, h2⟩, rfl⟩

/-- The per-position contribution of the sweep: `none` for air or a
skipped block, `some e` for a pasted sprite. -/
def pasteOpt (assets : String → Option J) (ctx : RenderCtx) (fuel : Nat)
    (grid : Int → Int → Int → String) (bd : Bounds) (p : Int × Int × Int) :
    Option PasteEvent :=
  if grid p.1 p.2.1 p.2.2 = "minecraft:air" then none
  else pasteOf assets ctx fuel grid bd p

theorem sceneStep_eq (assets : String → Option J) (ctx : RenderCtx) (fuel : Nat)
    (grid : Int → Int → Int → String) (bd : Bounds)
    (canvas : List PasteEvent) (p : Int × Int × Int) :
    sceneStep assets ctx fuel grid bd canvas p =
      canvas ++ (pasteOpt assets ctx fuel grid bd p).toList := by
  unfold sceneStep pasteOpt
  by_cases hb : grid p.1 p.2.1 p.2.2 = "minecraft:air"
  · simp [hb]
  · simp only [hb, if_false]
    match pasteOf assets ctx fuel grid bd p with
    | some e => simp
    | none => simp

theorem foldl_sceneStep (assets : String → Option J) (ctx : RenderCtx) (fuel : Nat)
    (grid : Int → Int → Int → String) (bd : Bounds) :
    ∀ (l : List (Int × Int × Int)) (acc : List PasteEvent),
      l.foldl (sceneStep assets ctx fuel grid bd) acc =
        acc ++ l.filterMap (pasteOpt assets ctx fuel grid bd) := by
  intro l
  induction l with
  | nil => simp
  | cons p l ih =>
    intro acc
    rw [List.foldl_cons, sceneStep_eq, ih, List.filterMap_cons]
    match pasteOpt assets ctx fuel grid bd p with
    | some e => simp
    | none => simp

theorem filterMap_pasteOpt (assets : String → Option J) (ctx : RenderCtx) (fuel : Nat)
    (grid : Int → Int → Int → String) (bd : Bounds) (l : List (Int × Int × Int)) :
    l.filterMap (pasteOpt assets ctx fuel grid bd) =
      (l.filter (fun p => !(grid p.1 p.2.1 p.2.2 == "minecraft:air"))).filterMap
        (pasteOf assets ctx fuel grid bd) := by
  induction l with
  | nil => simp
  | cons p l ih =>
    rw [List.filterMap_cons, List.filter_cons]
    by_cases hb : grid p.1 p.2.1 p.2.2 = "minecraft:air"
    · simp only [pasteOpt, hb, if_true]
      simp [hb, ih]
    · simp only [pasteOpt, hb, if_false]
      rw [if_pos (by simp [hb])]
      rw [List.filterMap_cons]
      match pasteOf assets ctx fuel grid bd p with
      | some e => simp [ih]
      | none => simp [ih]

/-- C8: the scene sweep visits exactly the grid box in strictly ascending
(Y, Z, X) order, and the pastes onto the canvas are exactly the sprites
of the non-air positions, in that visiting order. -/
theorem scene_draw_order (assets : String → Option J) (ctx : RenderCtx) (fuel : Nat)
    (grid : Int → Int → Int → String) (bd : Bounds) :
    (scanPositions bd).Pairwise scanLt ∧
    (∀ p : Int × Int × Int, p ∈ scanPositions bd ↔
      bd.minX ≤ p.1 ∧ p.1 ≤ bd.maxX ∧ bd.minY ≤ p.2.1 ∧ p.2.1 ≤ bd.maxY ∧
      bd.minZ ≤ p.2.2 ∧ p.2.2 ≤ bd.maxZ) ∧
    renderEvents assets ctx fuel grid bd =
      ((scanPositions bd).filter
        (fun p => !(grid p.1 p.2.1 p.2.2 == "minecraft:air"))).filterMap
        (pasteOf assets ctx fuel grid bd) := by
  refine ⟨scanPositions_sorted bd, scanPositions_mem bd, ?_⟩
  unfold renderEvents
  rw [foldl_sceneStep, filterMap_pasteOpt]
  simp

/-! ### C9: crop to content, empty scene -/

theorem foldl_min_le (f : (Int × Int) → Int) (l : List (Int × Int)) (a : Int) :
    l.foldl (fun m q => min m (f q)) a ≤ a ∧
    ∀ q ∈ l, l.foldl (fun m q => min m (f q)) a ≤ f q := by
  induction l generalizing a with
  | nil => simp
  | cons r l ih =>
    rw [List.foldl_cons]
    obtain ⟨h1, h2⟩ := ih (min a (f r))
    refine ⟨le_trans h1 (min_le_left a (f r)), ?_⟩
    intro q hq
    rcases List.mem_cons.mp hq with hq | hq
    · subst hq
      exact le_trans h1 (min_le_right a (f q))
    · exact h2 q hq

theorem le_foldl_max (f : (Int × Int) → Int) (l : List (Int × Int)) (a : Int) :
    a ≤ l.foldl (fun m q => max m (f q)) a ∧
    ∀ q ∈ l, f q ≤ l.foldl (fun m q => max m (f q)) a := by
  induction l generalizing a with
  | nil => simp
  | cons r l ih =>
    rw [List.foldl_cons]
    obtain ⟨h1, h2⟩ := ih (max a (f r))
    refine ⟨le_trans (le_max_left a (f r)) h1, ?_⟩
    intro q hq
    rcases List.mem_cons.mp hq with hq | hq
    · subst hq
      exact le_trans (le_max_right a (f q)) h1
    · exact h2 q hq

/-- The computed `getbbox` really bounds every canvas pixel. -/
theorem getbbox_bounds (px : List (Int × Int)) (l u r d : Int)
    (h : getbbox px = some (l, u, r, d)) :
    ∀ q ∈ px, l ≤ q.1 ∧ q.1 < r ∧ u ≤ q.2 ∧ q.2 < d := by
  match px with
  | [] => simp [getbbox] at h
  | p :: rest =>
    simp only [getbbox, Option.some.injEq, Prod.mk.injEq] at h
    obtain ⟨hl, hu, hr, hd⟩ := h
    intro q hq
    rcases List.mem_cons.mp hq with hq | hq
    · subst hq
      refine ⟨hl ▸ (foldl_min_le Prod.fst rest q.1).1, ?_,
        hu ▸ (foldl_min_le Prod.snd rest q.2).1, ?_⟩
      · have := (le_foldl_max Prod.fst rest q.1).1
        omega
      · have := (le_foldl_max Prod.snd rest q.2).1
        omega
    · refine ⟨hl ▸ (foldl_min_le Prod.fst rest p.1).2 q hq, ?_,
        hu ▸ (foldl_min_le Prod.snd rest p.2).2 q hq, ?_⟩
      · have := (le_foldl_max Prod.fst rest p.1).2 q hq
        omega
      · have := (le_foldl_max Prod.snd rest p.2).2 q hq
        omega

/-- C9: the render crops the canvas to the bounding box of its
non-transparent pixels before writing (every written pixel lands inside
the cropped frame), and an all-air grid produces no pastes and an empty
written output, with the render running to completion. -/
theorem crop_and_empty_scene (assets : String → Option J) (ctx : RenderCtx)
    (fuel : Nat) (grid : Int → Int → Int → String) (bd : Bounds)
    (raster : List DrawOp → List (Int × Int)) :
    (render assets ctx fuel grid bd raster =
      renderOutput (scenePixels raster (renderEvents assets ctx fuel grid bd))) ∧
    (∀ (px : List (Int × Int)) (l u r d : Int), getbbox px = some (l, u, r, d) →
      renderOutput px = px.map (fun q => (q.1 - l, q.2 - u)) ∧
      ∀ q ∈ renderOutput px, 0 ≤ q.1 ∧ q.1 < r - l ∧ 0 ≤ q.2 ∧ q.2 < d - u) ∧
    ((∀ x y z : Int, grid x y z = "minecraft:air") →
      renderEvents assets ctx fuel grid bd = [] ∧
      render assets ctx fuel grid bd raster = []) := by
  refine ⟨rfl, ?_, ?_⟩
  · intro px l u r d hbb
    have hout : renderOutput px = px.map (fun q => (q.1 - l, q.2 - u)) := by
      unfold renderOutput
      rw [hbb]
    refine ⟨hout, ?_⟩
    intro q hq
    rw [hout] at hq
    obtain ⟨q', hq', rfl⟩ := List.mem_map.mp hq
    have hb := getbbox_bounds px l u r d hbb q' hq'
    refine ⟨by omega, by omega, by omega, by omega⟩
  · intro hair
    have hev : renderEvents assets ctx fuel grid bd = [] := by
      unfold renderEvents
      rw [foldl_sceneStep, filterMap_pasteOpt]
      rw [show (scanPositions bd).filter
          (fun p => !(grid p.1 p.2.1 p.2.2 == "minecraft:air")) = [] from by
        rw [List.filter_eq_nil_iff]
        intro p _
        simp [hair]]
      simp
    refine ⟨hev, ?_⟩
    unfold render
    rw [hev]
    rfl

/-- Witness for C9: the crop clause at the one-pixel canvas `[(5, 7)]`,
and the empty clause at an all-air 1×1×1 grid. -/
theorem crop_and_empty_scene_witness :
    (renderOutput [((5 : Int), (7 : Int))] =
      [((5 : Int), (7 : Int))].map (fun q => (q.1 - 5, q.2 - 7)) ∧
      ∀ q ∈ renderOutput [((5 : Int), (7 : Int))],
        0 ≤ q.1 ∧ q.1 < 6 - 5 ∧ 0 ≤ q.2 ∧ q.2 < 8 - 7) ∧
    (renderEvents (fun _ => none) ⟨fun _ => none, 7/8, 1/2, 32⟩ 1
        (fun _ _ _ => "minecraft:air") ⟨0, 0, 0, 0, 0, 0⟩ = [] ∧
      render (fun _ => none) ⟨fun _ => none, 7/8, 1/2, 32⟩ 1
        (fun _ _ _ => "minecraft:air") ⟨0, 0, 0, 0, 0, 0⟩ (fun _ => []) = []) :=
  ⟨(crop_and_empty_scene (fun _ => none) ⟨fun _ => none, 7/8, 1/2, 32⟩ 1
      (fun _ _ _ => "minecraft:air") ⟨0, 0, 0, 0, 0, 0⟩ (fun _ => [])).2.1
      [((5 : Int), (7 : Int))] 5 7 6 8 rfl,
   (crop_and_empty_scene (fun _ => none) ⟨fun _ => none, 7/8, 1/2, 32⟩ 1
      (fun _ _ _ => "minecraft:air") ⟨0, 0, 0, 0, 0, 0⟩ (fun _ => [])).2.2
      (fun _ _ _ => rfl)⟩

end LitematicRender
